import Mathlib

/-!
Shallow embedding of `mi/instrument/teledyne/workhorse_adcp_5_beam_600khz/ooicore/receiver.py`
(the `_Receiver` class): the conversational line tracker (`_update_lines`,
`_buffer_received`), the state setter (`_set_state`), the stream-parsing sink
(`sink`, `_pd0_received`, `_timestamp_received`), the outfile mirroring
(`_update_outfile`, `_end_outfile`), the socket read method (`_recv`), the
stop request (`end`) and the read loop (`run`).

Byte buffers are modelled as `List Char`; the mutable attributes of the
Python object are a `Receiver` record; `log` side effects that the spec
talks about (state-transition records, data-listener invocations, outfile
writes) are returned as explicit `Effect` lists rather than stored in the
record, mirroring that they are externally observable actions, not state.
-/

/-- Modelled from the spec: the conversational states from the missing
`defs.py` module (`State.TBD` is the spec's Unknown, plus `PROMPT` and
`COLLECTING_DATA`).  The Python attribute `_state` can also hold `None`
(the spec's "pending/unset" marker), so the receiver stores an
`Option VState`. -/
inductive VState
  | TBD
  | PROMPT
  | COLLECTING_DATA
deriving DecidableEq

/-- The attributes of the Python `_Receiver` object (configuration flags and
mutable state).  `_data_listener` and `_outfile` only matter through their
presence, so they are modelled as Booleans; `_latest_pd0` holds an opaque
decoded-ensemble payload modelled as `Nat`; `_recv_time` is an abstract
clock tick (the code stores `time.time()`). -/
structure Receiver where
  ooi_digi : Bool
  has_data_listener : Bool
  has_outfile : Bool
  prefix_state : Bool
  active : Bool
  state : Option VState
  latest_ts : Option Nat
  latest_pd0 : Option Nat
  last_line : List Char
  new_line : List Char
  lines : List (List Char)
  recv_time : Nat
deriving DecidableEq

/-- Externally observable side effects of the receiver: `transition` is the
`log.info` record emitted by `_set_state` on an actual change, `listener_call`
an invocation of the configured `_data_listener`, `outfile_write` a write of
received data to the outfile, `end_mark` the terminal marker written by
`_end_outfile`, and `pipe_closed` the `pipeline.close()` call at loop exit. -/
inductive Effect
  | transition (oldSt newSt : Option VState)
  | listener_call (pd0 : Nat)
  | outfile_write (w : List Char)
  | end_mark
  | pipe_closed
deriving DecidableEq

/-- `_Receiver.MAX_NUM_LINES = 1024`. -/
def MAX_NUM_LINES : Nat := 1024

/-- Modelled from the spec: the fixed prompt marker `PROMPT` from the missing
`defs.py` module ("a fixed text marker the instrument emits when idle").
All theorems are parameterized over an arbitrary prompt; this concrete value
is only used to instantiate witnesses. -/
def PROMPT : List Char := ['>']

/-- Python whitespace characters stripped by `str.rstrip()`. -/
def pySpace (c : Char) : Bool :=
  c = ' ' || c = '\t' || c = '\n' || c = '\r' || c = Char.ofNat 11 || c = Char.ofNat 12

/-- Python `s.rstrip()`: remove trailing whitespace. -/
def rstrip (l : List Char) : List Char :=
  (l.reverse.dropWhile pySpace).reverse

/-- `_Receiver._set_state`: store the new state and emit a transition record
only when it differs from the currently held one. -/
def setState (s : Receiver) (v : VState) : Receiver × List Effect :=
  if s.state ≠ some v then
    ({ s with state := some v }, [Effect.transition s.state (some v)])
  else (s, [])

/-- `_Receiver.end`: clear the active flag. -/
def endRcv (s : Receiver) : Receiver :=
  { s with active := false }

/-- One character of `_Receiver._update_lines`'s loop, threading the `numl`
counter: a newline completes `_new_line` into `_last_line`, appends it to
`_lines` and, when the count exceeds `MAX_NUM_LINES`, evicts via the slice
`self._lines[1 - self.MAX_NUM_LINES:]` (which keeps the last
`MAX_NUM_LINES - 1` entries); any other character is accumulated into
`_new_line`. -/
def updChar (p : Receiver × Nat) (c : Char) : Receiver × Nat :=
  let s := p.1
  if c = '\n' then
    let last := s.new_line
    let ls := s.lines ++ [last]
    let ls2 := if ls.length > MAX_NUM_LINES then ls.drop (ls.length - (MAX_NUM_LINES - 1)) else ls
    ({ s with last_line := last, new_line := [], lines := ls2 }, p.2 + 1)
  else
    ({ s with new_line := s.new_line ++ [c] }, p.2)

/-- `_Receiver._update_lines`: fold `updChar` over the received buffer,
returning the updated receiver and the number of lines completed (`numl`). -/
def updateLines (s : Receiver) (buf : List Char) : Receiver × Nat :=
  buf.foldl updChar (s, 0)

/-- `_Receiver._buffer_received`: update the line info, then set the state to
`PROMPT` when the stripped last line equals the prompt, else clear the state
to the unset marker (a raw assignment, no transition record) when at least
one line completed. -/
def bufferReceived (prompt : List Char) (s : Receiver) (buf : List Char) :
    Receiver × List Effect :=
  let u := updateLines s buf
  if rstrip u.1.last_line = prompt then setState u.1 VState.PROMPT
  else if u.2 ≠ 0 then ({ u.1 with state := none }, [])
  else (u.1, [])

/-- `_Receiver._timestamp_received`: store the latest timestamp. -/
def timestampReceived (s : Receiver) (t : Nat) : Receiver × List Effect :=
  ({ s with latest_ts := some t }, [])

/-- `_Receiver._pd0_received`: set the state to `COLLECTING_DATA`, overwrite
the latest-ensemble slot, and invoke the data listener when one is
configured. -/
def pd0Received (s : Receiver) (p : Nat) : Receiver × List Effect :=
  let u := setState s VState.COLLECTING_DATA
  ({ u.1 with latest_pd0 := some p },
   u.2 ++ if s.has_data_listener then [Effect.listener_call p] else [])

/-- The extracted-elements dictionary travelling down the pipeline (`xelems`):
`latest_ts` set by the timestamp filter, `pd0` by the pd0 filter. -/
structure XElems where
  latest_ts : Option Nat
  pd0 : Option Nat
deriving DecidableEq

/-- The empty `xelems` dictionary pushed by `run` with each received buffer. -/
def emptyX : XElems := ⟨none, none⟩

/-- One `(yield)` round of `_Receiver.sink`: dispatch the timestamp (Python
truthiness: `None` and `0` are both skipped), then the ensemble, then the
residual text buffer (skipped when empty). -/
def sinkStep (prompt : List Char) (s : Receiver) (x : XElems) (buf : List Char) :
    Receiver × List Effect :=
  let a := match x.latest_ts with
    | some t => if t ≠ 0 then timestampReceived s t else (s, [])
    | none => (s, [])
  let b := match x.pd0 with
    | some p => pd0Received a.1 p
    | none => (a.1, [])
  let c := if buf ≠ [] then bufferReceived prompt b.1 buf else (b.1, [])
  (c.1, a.2 ++ b.2 ++ c.2)

/-- The `_Receiver` attributes right after `__init__`/`reset_internal_info`
(all configuration flags off, state `TBD`, empty line info). -/
def initReceiver : Receiver :=
  { ooi_digi := false, has_data_listener := false, has_outfile := false,
    prefix_state := false, active := false, state := some VState.TBD,
    latest_ts := none, latest_pd0 := none,
    last_line := [], new_line := [], lines := [], recv_time := 0 }

/-- Structure eta for the receiver record. -/
theorem receiver_eta (s : Receiver) : { s with state := s.state } = s := rfl

/-- The first component of `_set_state` is always the receiver with the new
state stored (when the state is unchanged this is the receiver itself). -/
theorem setState_fst (s : Receiver) (v : VState) :
    (setState s v).1 = { s with state := some v } := by
  unfold setState
  split
  · rfl
  · next h =>
      have h2 : s.state = some v := by simpa using h
      rw [← h2, receiver_eta]

/-- One `updChar` step from a receiver whose state field was overridden. -/
theorem updChar_state_override (c : Char) (s : Receiver) (n : Nat) (x : Option VState) :
    updChar ({ s with state := x }, n) c =
      ({ (updChar (s, n) c).1 with state := x }, (updChar (s, n) c).2) := by
  by_cases h : c = '\n' <;> simp [updChar, h]

/-- `updChar` threads its `numl` accumulator additively. -/
theorem updChar_acc (c : Char) (p : Receiver × Nat) :
    updChar p c = ((updChar (p.1, 0) c).1, p.2 + (updChar (p.1, 0) c).2) := by
  obtain ⟨s, n⟩ := p
  by_cases h : c = '\n' <;> simp [updChar, h]

/-- Folding `updChar` threads the `numl` accumulator additively. -/
theorem foldl_updChar_acc (b : List Char) (p : Receiver × Nat) :
    b.foldl updChar p = ((b.foldl updChar (p.1, 0)).1, p.2 + (b.foldl updChar (p.1, 0)).2) := by
  induction b generalizing p with
  | nil => simp
  | cons c b ih =>
      simp only [List.foldl_cons]
      rw [ih (updChar p c), ih (updChar (p.1, 0) c), updChar_acc c p]
      simp [Nat.add_assoc]

/-- Shape of one `updChar` step: only the three line fields change. -/
theorem updChar_shape (c : Char) (s : Receiver) (n : Nat) :
    ∃ ll nl ls, (updChar (s, n) c).1 = { s with last_line := ll, new_line := nl, lines := ls } := by
  by_cases h : c = '\n'
  · exact ⟨s.new_line, [],
      if (s.lines ++ [s.new_line]).length > MAX_NUM_LINES then
        (s.lines ++ [s.new_line]).drop ((s.lines ++ [s.new_line]).length - (MAX_NUM_LINES - 1))
      else s.lines ++ [s.new_line], by simp [updChar, h]⟩
  · exact ⟨s.last_line, s.new_line ++ [c], s.lines, by simp [updChar, h]⟩

/-- Shape of a fold of `updChar`: only the three line fields change. -/
theorem foldl_updChar_shape (b : List Char) (s : Receiver) (n : Nat) :
    ∃ ll nl ls, (b.foldl updChar (s, n)).1 = { s with last_line := ll, new_line := nl, lines := ls } := by
  induction b generalizing s n with
  | nil => exact ⟨s.last_line, s.new_line, s.lines, rfl⟩
  | cons c b ih =>
      simp only [List.foldl_cons]
      obtain ⟨l1, m1, L1, h1⟩ := updChar_shape c s n
      rw [show updChar (s, n) c = ((updChar (s, n) c).1, (updChar (s, n) c).2) from rfl, h1]
      obtain ⟨ll, nl, ls, h2⟩ :=
        ih { s with last_line := l1, new_line := m1, lines := L1 } (updChar (s, n) c).2
      rw [h2]
      exact ⟨ll, nl, ls, rfl⟩

/-- `_update_lines` does not change the conversational state. -/
theorem updateLines_state (s : Receiver) (b : List Char) :
    (updateLines s b).1.state = s.state := by
  obtain ⟨ll, nl, ls, h⟩ := foldl_updChar_shape b s 0
  unfold updateLines
  rw [h]

/-- `_update_lines` does not change the active flag, the configuration flags,
the latest timestamp/ensemble slots or the receive time. -/
theorem updateLines_untouched (s : Receiver) (b : List Char) :
    (updateLines s b).1.active = s.active ∧
    (updateLines s b).1.has_outfile = s.has_outfile ∧
    (updateLines s b).1.has_data_listener = s.has_data_listener ∧
    (updateLines s b).1.ooi_digi = s.ooi_digi ∧
    (updateLines s b).1.prefix_state = s.prefix_state ∧
    (updateLines s b).1.latest_ts = s.latest_ts ∧
    (updateLines s b).1.latest_pd0 = s.latest_pd0 ∧
    (updateLines s b).1.recv_time = s.recv_time := by
  obtain ⟨ll, nl, ls, h⟩ := foldl_updChar_shape b s 0
  unfold updateLines
  rw [h]
  exact ⟨rfl, rfl, rfl, rfl, rfl, rfl, rfl, rfl⟩

/-- Folding `updChar` from a state-overridden receiver: the line fields evolve
as without the override and the override survives. -/
theorem foldl_updChar_state_override (b : List Char) (s : Receiver) (n : Nat) (x : Option VState) :
    b.foldl updChar ({ s with state := x }, n) =
      ({ (b.foldl updChar (s, n)).1 with state := x }, (b.foldl updChar (s, n)).2) := by
  induction b generalizing s n with
  | nil => rfl
  | cons c b ih =>
      simp only [List.foldl_cons]
      rw [updChar_state_override]
      rw [show updChar (s, n) c = ((updChar (s, n) c).1, (updChar (s, n) c).2) from rfl]
      exact ih _ _

/-- `_update_lines` from a state-overridden receiver. -/
theorem updateLines_state_override (s : Receiver) (b : List Char) (x : Option VState) :
    updateLines { s with state := x } b =
      ({ (updateLines s b).1 with state := x }, (updateLines s b).2) := by
  unfold updateLines
  exact foldl_updChar_state_override b s 0 x

/-- Splitting `_update_lines` over a concatenation: the receiver is threaded
through and the completed-line counts add up. -/
theorem updateLines_append (s : Receiver) (b1 b2 : List Char) :
    updateLines s (b1 ++ b2) =
      ((updateLines (updateLines s b1).1 b2).1,
       (updateLines s b1).2 + (updateLines (updateLines s b1).1 b2).2) := by
  unfold updateLines
  rw [List.foldl_append]
  rw [show List.foldl updChar (s, 0) b1 =
        ((List.foldl updChar (s, 0) b1).1, (List.foldl updChar (s, 0) b1).2) from rfl]
  rw [foldl_updChar_acc]

/-- A fold of `updChar` over newline-free input only extends `_new_line`. -/
theorem foldl_updChar_no_nl (b : List Char) (s : Receiver) (n : Nat)
    (h : ∀ c ∈ b, c ≠ '\n') :
    b.foldl updChar (s, n) = ({ s with new_line := s.new_line ++ b }, n) := by
  induction b generalizing s n with
  | nil => simp only [List.foldl_nil, List.append_nil]
  | cons c b ih =>
      have hc : c ≠ '\n' := h c (by simp)
      simp only [List.foldl_cons]
      rw [show updChar (s, n) c = ({ s with new_line := s.new_line ++ [c] }, n) from by
        simp [updChar, hc]]
      rw [ih _ _ (fun d hd => h d (by simp [hd]))]
      simp

/-- If a fold of `updChar` completed no line, the input had no newline. -/
theorem foldl_updChar_no_nl_of_numl (b : List Char) (s : Receiver)
    (h : (b.foldl updChar (s, 0)).2 = 0) : ∀ c ∈ b, c ≠ '\n' := by
  induction b generalizing s with
  | nil => simp
  | cons c b ih =>
      simp only [List.foldl_cons] at h
      rw [show updChar (s, 0) c = ((updChar (s, 0) c).1, (updChar (s, 0) c).2) from rfl,
        foldl_updChar_acc] at h
      simp only [Nat.add_eq_zero] at h
      intro d hd
      rcases List.mem_cons.1 hd with rfl | hd2
      · intro hEq
        rw [hEq] at h
        simp [updChar] at h
      · exact ih (updChar (s, 0) c).1 h.2 d hd2

/-- A call of `_update_lines` that completed no line only extends
`_new_line` (in particular `_last_line` and `_lines` are unchanged). -/
theorem updateLines_of_numl_zero (s : Receiver) (b : List Char)
    (h : (updateLines s b).2 = 0) :
    (updateLines s b).1 = { s with new_line := s.new_line ++ b } := by
  have hn := foldl_updChar_no_nl_of_numl b s h
  unfold updateLines
  rw [foldl_updChar_no_nl b s 0 hn]

/-- Flattened form of `_buffer_received`: the line fields evolve by
`_update_lines` and the state is recomputed from the stripped last line and
the completed-line count. -/
theorem bufferReceived_fst (prompt : List Char) (s : Receiver) (buf : List Char) :
    (bufferReceived prompt s buf).1 =
      { (updateLines s buf).1 with state :=
          if (rstrip (updateLines s buf).1.last_line = prompt) then some VState.PROMPT
          else if ((updateLines s buf).2 ≠ 0) then none
          else s.state } := by
  simp only [bufferReceived]
  split
  · rw [setState_fst]
  · split
    · rfl
    · rw [← updateLines_state s buf]

/-- Composition law for `_buffer_received`: processing two buffers in
sequence leaves the receiver exactly as processing their concatenation in
one call. -/
theorem bufferReceived_comp (prompt : List Char) (s : Receiver) (b1 b2 : List Char) :
    (bufferReceived prompt (bufferReceived prompt s b1).1 b2).1 =
      (bufferReceived prompt s (b1 ++ b2)).1 := by
  rw [bufferReceived_fst prompt s b1, bufferReceived_fst prompt _ b2,
    bufferReceived_fst prompt s (b1 ++ b2), updateLines_append s b1 b2,
    updateLines_state_override]
  by_cases hA2 : rstrip (updateLines (updateLines s b1).1 b2).1.last_line = prompt
  · simp [hA2]
  · by_cases hn2 : (updateLines (updateLines s b1).1 b2).2 = 0
    · have hll : (updateLines (updateLines s b1).1 b2).1.last_line =
          (updateLines s b1).1.last_line := by
        rw [updateLines_of_numl_zero _ _ hn2]
      have hA1 : ¬ rstrip (updateLines s b1).1.last_line = prompt := by
        rw [← hll]; exact hA2
      simp [hA2, hn2, hA1]
    · simp [hA2, hn2]

/-- C1: buffer-boundary invariance of the line tracker: feeding any nonempty
chunking of a byte sequence through `_buffer_received` chunk by chunk leaves
the receiver — line history, in-progress and last line, and conversational
state — exactly as feeding the concatenated bytes in a single call. -/
theorem claim_C1 (prompt : List Char) (s : Receiver) (chunks : List (List Char))
    (h : chunks ≠ []) :
    chunks.foldl (fun t b => (bufferReceived prompt t b).1) s =
      (bufferReceived prompt s chunks.flatten).1 := by
  have aux : ∀ (rest : List (List Char)) (c : List Char) (t : Receiver),
      rest.foldl (fun t b => (bufferReceived prompt t b).1) (bufferReceived prompt t c).1 =
        (bufferReceived prompt t (c ++ rest.flatten)).1 := by
    intro rest
    induction rest with
    | nil => intro c t; simp
    | cons d rest ih =>
        intro c t
        simp only [List.foldl_cons, List.flatten_cons]
        rw [ih d (bufferReceived prompt t c).1, bufferReceived_comp]
  cases chunks with
  | nil => exact absurd rfl h
  | cons c rest =>
      simp only [List.foldl_cons, List.flatten_cons]
      exact aux rest c s

/-- Witness for C1: a line split across three chunks, ending in a prompt. -/
theorem claim_C1_witness :
    List.foldl (fun t b => (bufferReceived PROMPT t b).1) initReceiver
        [['a'], ['b', '\n', '>'], ['\n']] =
      (bufferReceived PROMPT initReceiver
        ([['a'], ['b', '\n', '>'], ['\n']] : List (List Char)).flatten).1 :=
  claim_C1 PROMPT initReceiver [['a'], ['b', '\n', '>'], ['\n']] (by decide)

/-- C4: after `_buffer_received`, when the stripped most recently completed
line equals the prompt the state becomes `PROMPT`; otherwise, when at least
one line completed in this buffer, the state is cleared to the unset marker
(`none`, the spec's Unknown/unset); otherwise the prior state is kept — in
each case regardless of the prior state. -/
theorem claim_C4 (prompt : List Char) (s : Receiver) (buf : List Char) :
    (rstrip (updateLines s buf).1.last_line = prompt →
      (bufferReceived prompt s buf).1.state = some VState.PROMPT) ∧
    (rstrip (updateLines s buf).1.last_line ≠ prompt → (updateLines s buf).2 ≠ 0 →
      (bufferReceived prompt s buf).1.state = none) ∧
    (rstrip (updateLines s buf).1.last_line ≠ prompt → (updateLines s buf).2 = 0 →
      (bufferReceived prompt s buf).1.state = s.state) := by
  refine ⟨?_, ?_, ?_⟩ <;> intro h
  · rw [bufferReceived_fst]; simp [h]
  · intro h2
    rw [bufferReceived_fst]; simp [h, h2]
  · intro h2
    rw [bufferReceived_fst]; simp [h, h2]

/-- Witness for C4: a prompt line yields state `PROMPT`; a non-prompt line
clears the state to the unset marker even from the `PROMPT` state. -/
theorem claim_C4_witness :
    (bufferReceived PROMPT initReceiver ['>', '\n']).1.state = some VState.PROMPT ∧
    (bufferReceived PROMPT { initReceiver with state := some VState.PROMPT }
        ['a', '\n']).1.state = none :=
  ⟨(claim_C4 PROMPT initReceiver ['>', '\n']).1 (by decide),
   (claim_C4 PROMPT { initReceiver with state := some VState.PROMPT }
     ['a', '\n']).2.1 (by decide) (by decide)⟩

/-- C6: `_set_state` leaves the receiver untouched and emits no transition
record when the new state equals the held one, and otherwise stores the new
state and emits exactly one record, which witnesses the actual change. -/
theorem claim_C6 (s : Receiver) (v : VState) :
    (s.state = some v → setState s v = (s, [])) ∧
    (s.state ≠ some v →
      setState s v =
        ({ s with state := some v }, [Effect.transition s.state (some v)])) := by
  constructor <;> intro h <;> simp [setState, h]

/-- Witness for C6: a no-op set emits nothing, a real change emits one
transition record. -/
theorem claim_C6_witness :
    setState initReceiver VState.TBD = (initReceiver, []) ∧
    setState initReceiver VState.PROMPT =
      ({ initReceiver with state := some VState.PROMPT },
       [Effect.transition (some VState.TBD) (some VState.PROMPT)]) :=
  ⟨(claim_C6 initReceiver VState.TBD).1 rfl,
   (claim_C6 initReceiver VState.PROMPT).2 (by decide)⟩

/-- C8: `end()` is idempotent: iterating it any positive number of times
leaves the receiver exactly as one call does, and a call only clears the
active flag. -/
theorem claim_C8 (s : Receiver) (n : Nat) :
    endRcv^[n + 1] s = endRcv s ∧ endRcv s = { s with active := false } := by
  refine ⟨?_, rfl⟩
  induction n with
  | zero => rfl
  | succ k ih =>
      rw [Function.iterate_succ_apply', ih]
      rfl

/-- Recognizer for data-listener invocation effects. -/
def isListenerCall : Effect → Bool
  | Effect.listener_call _ => true
  | _ => false

/-- `_set_state` never invokes the data listener. -/
theorem setState_filter_listener (s : Receiver) (v : VState) :
    (setState s v).2.filter isListenerCall = [] := by
  unfold setState
  split <;> simp [isListenerCall]

/-- `_buffer_received` never invokes the data listener. -/
theorem bufferReceived_filter_listener (prompt : List Char) (s : Receiver) (buf : List Char) :
    (bufferReceived prompt s buf).2.filter isListenerCall = [] := by
  simp only [bufferReceived]
  split
  · exact setState_filter_listener _ _
  · split <;> rfl

/-- The listener invocations of `_pd0_received`: exactly one call, with the
delivered ensemble, when a listener is configured. -/
theorem pd0Received_filter_listener (s : Receiver) (p : Nat) :
    (pd0Received s p).2.filter isListenerCall =
      if s.has_data_listener then [Effect.listener_call p] else [] := by
  simp only [pd0Received, List.filter_append, setState_filter_listener]
  split <;> simp [isListenerCall]

/-- `_pd0_received` does not change the configuration flags. -/
theorem pd0Received_flags (s : Receiver) (p : Nat) :
    (pd0Received s p).1.has_data_listener = s.has_data_listener ∧
    (pd0Received s p).1.has_outfile = s.has_outfile ∧
    (pd0Received s p).1.ooi_digi = s.ooi_digi ∧
    (pd0Received s p).1.active = s.active := by
  simp [pd0Received, setState_fst]

/-- C5: `_pd0_received` sets the state to `COLLECTING_DATA` regardless of the
prior state, overwrites the latest-ensemble slot with the new ensemble, and
the listener invocations it performs are exactly one call carrying that
ensemble when a listener is configured (none otherwise); moreover a whole
`sink` round delivering that ensemble performs exactly those listener
invocations. -/
theorem claim_C5 (s : Receiver) (p : Nat) :
    (pd0Received s p).1.state = some VState.COLLECTING_DATA ∧
    (pd0Received s p).1.latest_pd0 = some p ∧
    ((pd0Received s p).2.filter isListenerCall =
      if s.has_data_listener then [Effect.listener_call p] else []) ∧
    (∀ (prompt buf : List Char) (x : XElems), x.pd0 = some p →
      (sinkStep prompt s x buf).2.filter isListenerCall =
        if s.has_data_listener then [Effect.listener_call p] else []) := by
  refine ⟨?_, rfl, pd0Received_filter_listener s p, ?_⟩
  · simp only [pd0Received, setState_fst]
  · intro prompt buf x hx
    obtain ⟨xts, xpd⟩ := x
    cases hx
    have hc : ∀ r : Receiver,
        ((if ¬buf = [] then bufferReceived prompt r buf else (r, [])).2).filter
          isListenerCall = [] := by
      intro r
      split
      · exact bufferReceived_filter_listener prompt r buf
      · rfl
    cases xts with
    | none =>
        simp only [sinkStep, List.filter_append, List.nil_append, ne_eq]
        rw [pd0Received_filter_listener, hc]
        simp
    | some t =>
        by_cases ht : t = 0
        · subst ht
          simp only [sinkStep, ne_eq, not_true_eq_false, if_false, ite_false,
            List.filter_append, List.nil_append]
          rw [pd0Received_filter_listener, hc]
          simp
        · simp only [sinkStep, ne_eq, ht, not_false_eq_true, if_true, ite_true,
            timestampReceived, List.filter_append, List.nil_append]
          rw [pd0Received_filter_listener, hc]
          simp

/-- Witness for C5: a configured listener is called exactly once per sink
round delivering an ensemble. -/
theorem claim_C5_witness :
    (pd0Received { initReceiver with has_data_listener := true } 7).1.state =
      some VState.COLLECTING_DATA ∧
    (sinkStep PROMPT { initReceiver with has_data_listener := true }
        ⟨none, some 7⟩ []).2.filter isListenerCall = [Effect.listener_call 7] := by
  refine ⟨(claim_C5 { initReceiver with has_data_listener := true } 7).1, ?_⟩
  have h := (claim_C5 { initReceiver with has_data_listener := true } 7).2.2.2
    PROMPT [] ⟨none, some 7⟩ rfl
  simpa using h

/-- The byte sequence of a list of newline-terminated lines. -/
def lineBytes (ls : List (List Char)) : List Char :=
  (ls.map (fun l => l ++ ['\n'])).flatten

/-- The receiver after feeding a list of newline-terminated lines to
`_update_lines` from the freshly initialized receiver. -/
def feedLines (ls : List (List Char)) : Receiver :=
  (updateLines initReceiver (lineBytes ls)).1

/-- Closed form of the eviction recurrence: the number of history entries
held after feeding n newline-terminated lines from a fresh receiver. -/
def keepLen (n : Nat) : Nat :=
  if n ≤ 1024 then n else if n % 2 = 0 then 1024 else 1023

/-- Feeding one newline-terminated line (no embedded newline) from a
receiver whose in-progress line is empty: the line is completed, appended,
and the eviction policy applied. -/
theorem updateLines_one_line (s : Receiver) (l : List Char)
    (hnl : ∀ c ∈ l, c ≠ '\n') (hnew : s.new_line = []) :
    (updateLines s (l ++ ['\n'])).1 =
      { s with
        last_line := l,
        new_line := [],
        lines := if ((s.lines ++ [l]).length > MAX_NUM_LINES) then
            (s.lines ++ [l]).drop ((s.lines ++ [l]).length - (MAX_NUM_LINES - 1))
          else s.lines ++ [l] } := by
  unfold updateLines
  rw [List.foldl_append, foldl_updChar_no_nl l s 0 hnl, hnew]
  simp [updChar]

set_option maxRecDepth 4000

/-- One `updChar` step keeps the line history within `MAX_NUM_LINES`. -/
theorem updChar_lines_le (p : Receiver × Nat) (c : Char)
    (h : p.1.lines.length ≤ MAX_NUM_LINES) :
    (updChar p c).1.lines.length ≤ MAX_NUM_LINES := by
  obtain ⟨s, n⟩ := p
  by_cases hc : c = '\n'
  · subst hc
    have hred : (updChar (s, n) '\n').1.lines =
        if ((s.lines ++ [s.new_line]).length > MAX_NUM_LINES) then
          (s.lines ++ [s.new_line]).drop ((s.lines ++ [s.new_line]).length - (MAX_NUM_LINES - 1))
        else s.lines ++ [s.new_line] := by
      simp [updChar]
    rw [hred]
    split
    · simp only [List.length_drop]
      omega
    · next hgt => omega
  · simpa [updChar, hc] using h

/-- Folding `updChar` keeps the line history within `MAX_NUM_LINES`. -/
theorem foldl_updChar_lines_le (b : List Char) (p : Receiver × Nat)
    (h : p.1.lines.length ≤ MAX_NUM_LINES) :
    (b.foldl updChar p).1.lines.length ≤ MAX_NUM_LINES := by
  induction b generalizing p with
  | nil => exact h
  | cons c b ih => exact ih (updChar p c) (updChar_lines_le p c h)

/-- `_update_lines` distributes over a chunking of its input. -/
theorem updateLines_flatten (chunks : List (List Char)) (s : Receiver) :
    chunks.foldl (fun t b => (updateLines t b).1) s = (updateLines s chunks.flatten).1 := by
  induction chunks generalizing s with
  | nil => rfl
  | cons c rest ih =>
      simp only [List.foldl_cons, List.flatten_cons]
      rw [ih (updateLines s c).1, updateLines_append]

/-- The closed form of feeding newline-terminated lines from a fresh
receiver: the in-progress line stays empty and the history is exactly the
`keepLen`-sized suffix of the fed lines. -/
theorem feedLines_closed (ls : List (List Char)) :
    (∀ l ∈ ls, ∀ c ∈ l, c ≠ '\n') →
    (feedLines ls).new_line = [] ∧
    (feedLines ls).lines = ls.drop (ls.length - keepLen ls.length) ∧
    (feedLines ls).lines.length = keepLen ls.length := by
  induction ls using List.reverseRecOn with
  | nil =>
      intro _
      exact ⟨rfl, by decide, by decide⟩
  | append_singleton ls l ih =>
      intro h
      have hl : ∀ c ∈ l, c ≠ '\n' := h l (by simp)
      have hrest : ∀ l' ∈ ls, ∀ c ∈ l', c ≠ '\n' := fun l' hl' => h l' (by simp [hl'])
      obtain ⟨ihn, ihl, ihlen⟩ := ih hrest
      have hfeed : feedLines (ls ++ [l]) =
          { feedLines ls with
            last_line := l,
            new_line := [],
            lines := if (((feedLines ls).lines ++ [l]).length > MAX_NUM_LINES) then
                ((feedLines ls).lines ++ [l]).drop
                  (((feedLines ls).lines ++ [l]).length - (MAX_NUM_LINES - 1))
              else (feedLines ls).lines ++ [l] } := by
        simp only [feedLines]
        rw [show lineBytes (ls ++ [l]) = lineBytes ls ++ (l ++ ['\n']) from by
          simp [lineBytes]]
        rw [show (updateLines initReceiver (lineBytes ls ++ (l ++ ['\n']))).1 =
            (updateLines (updateLines initReceiver (lineBytes ls)).1 (l ++ ['\n'])).1 from by
          rw [updateLines_append]]
        exact updateLines_one_line _ l hl ihn
      have hlen2 : ((feedLines ls).lines ++ [l]).length = keepLen ls.length + 1 := by
        simp [ihlen]
      have hk_le : keepLen ls.length ≤ 1024 := by
        unfold keepLen; split_ifs <;> omega
      rw [hfeed]
      by_cases hb : keepLen ls.length + 1 > 1024
      · have hk : keepLen ls.length = 1024 := by omega
        have hn : 1024 ≤ ls.length := by
          unfold keepLen at hk; split_ifs at hk <;> omega
        have hkeep1 : keepLen (ls.length + 1) = 1023 := by
          unfold keepLen at hk ⊢; split_ifs at hk ⊢ <;> omega
        have hcond : ((feedLines ls).lines ++ [l]).length > MAX_NUM_LINES := by
          rw [hlen2, hk]; unfold MAX_NUM_LINES; omega
        refine ⟨rfl, ?_, ?_⟩
        · rw [if_pos hcond]
          rw [show ((feedLines ls).lines ++ [l]).length - (MAX_NUM_LINES - 1) = 2 from by
            rw [hlen2, hk]; unfold MAX_NUM_LINES; omega]
          rw [ihl, hk]
          rw [List.drop_append_of_le_length (by rw [List.length_drop]; omega)]
          rw [List.drop_drop]
          rw [show (ls ++ [l]).length = ls.length + 1 from by simp]
          rw [hkeep1]
          rw [List.drop_append_of_le_length (by omega)]
          rw [show ls.length - 1024 + 2 = ls.length + 1 - 1023 from by omega]
        · rw [if_pos hcond, List.length_drop, hlen2, hk]
          rw [show (ls ++ [l]).length = ls.length + 1 from by simp, hkeep1]
          unfold MAX_NUM_LINES
          omega
      · have hkeep1 : keepLen (ls.length + 1) = keepLen ls.length + 1 := by
          have hb' : keepLen ls.length + 1 ≤ 1024 := by omega
          unfold keepLen at hb' ⊢; split_ifs at hb' ⊢ <;> omega
        have hcond : ¬ ((feedLines ls).lines ++ [l]).length > MAX_NUM_LINES := by
          rw [hlen2]; unfold MAX_NUM_LINES; omega
        refine ⟨rfl, ?_, ?_⟩
        · rw [if_neg hcond]
          rw [ihl]
          rw [show (ls ++ [l]).length = ls.length + 1 from by simp, hkeep1]
          rw [show ls.length + 1 - (keepLen ls.length + 1) =
              ls.length - keepLen ls.length from by omega]
          rw [List.drop_append_of_le_length (by omega)]
        · rw [if_neg hcond, hlen2]
          rw [show (ls ++ [l]).length = ls.length + 1 from by simp, hkeep1]

/-- C2: after any `_update_lines` call from a state within the bound (as
every reachable state is), the line history holds at most
`MAX_NUM_LINES` = 1024 entries; `_update_lines` is chunking-invariant; and
feeding 2000 newline-terminated lines from a fresh receiver leaves exactly
the last 1024 of them (lines 977..2000). -/
theorem claim_C2 :
    (∀ (s : Receiver) (buf : List Char), s.lines.length ≤ MAX_NUM_LINES →
      (updateLines s buf).1.lines.length ≤ MAX_NUM_LINES) ∧
    (∀ (chunks : List (List Char)) (s : Receiver),
      chunks.foldl (fun t b => (updateLines t b).1) s = (updateLines s chunks.flatten).1) ∧
    (∀ ls : List (List Char), ls.length = 2000 → (∀ l ∈ ls, ∀ c ∈ l, c ≠ '\n') →
      (feedLines ls).lines = ls.drop 976 ∧ (feedLines ls).lines.length = 1024) := by
  refine ⟨?_, updateLines_flatten, ?_⟩
  · intro s buf h
    exact foldl_updChar_lines_le buf (s, 0) h
  · intro ls hlen hnl
    obtain ⟨-, h2, h3⟩ := feedLines_closed ls hnl
    rw [hlen] at h2 h3
    refine ⟨?_, ?_⟩
    · rw [h2, show 2000 - keepLen 2000 = 976 from by decide]
    · rw [h3]
      decide

/-- A list of empty lines contains no newline character. -/
theorem no_nl_replicate (n : Nat) :
    ∀ l ∈ List.replicate n ([] : List Char), ∀ c ∈ l, c ≠ '\n' := by
  intro l hl
  rw [List.eq_of_mem_replicate hl]
  intro c hc
  simp at hc

/-- Witness for C2: the bound holds from a fresh receiver, and a 2000-line
feed of empty lines keeps the 1024-line suffix. -/
theorem claim_C2_witness :
    (updateLines initReceiver ['a', '\n']).1.lines.length ≤ MAX_NUM_LINES ∧
    (feedLines (List.replicate 2000 ([] : List Char))).lines =
      (List.replicate 2000 ([] : List Char)).drop 976 :=
  ⟨claim_C2.1 initReceiver ['a', '\n'] (by decide),
   (claim_C2.2.2 (List.replicate 2000 [])
     (by rw [List.length_replicate]) (no_nl_replicate 2000)).1⟩

/-- Counterexample to C3 as stated: from the reachable state holding 1024
lines (a fresh receiver fed 1024 empty lines), one more completed line
triggers eviction and leaves 1023 entries, not N_max = 1024: the slice
`self._lines[1 - MAX_NUM_LINES:]` keeps only the newest 1023. -/
theorem claim_C3_counterexample :
    (feedLines (List.replicate 1024 ([] : List Char))).lines.length = 1024 ∧
    (updateLines (feedLines (List.replicate 1024 ([] : List Char)))
      ['\n']).1.lines.length = 1023 ∧
    ¬ (updateLines (feedLines (List.replicate 1024 ([] : List Char)))
      ['\n']).1.lines.length = MAX_NUM_LINES := by
  obtain ⟨hnew, hlines, hlen⟩ := feedLines_closed _ (no_nl_replicate 1024)
  have hlen' : (feedLines (List.replicate 1024 ([] : List Char))).lines.length = 1024 := by
    rw [hlen, List.length_replicate]
    decide
  have h1 := updateLines_one_line (feedLines (List.replicate 1024 ([] : List Char)))
    [] (by simp) hnew
  simp only [List.nil_append] at h1
  have hc : ((feedLines (List.replicate 1024 ([] : List Char))).lines ++ [[]]).length >
      MAX_NUM_LINES := by
    rw [List.length_append, hlen']
    decide
  have h1' : (updateLines (feedLines (List.replicate 1024 ([] : List Char))) ['\n']).1.lines =
      if (((feedLines (List.replicate 1024 ([] : List Char))).lines ++ [[]]).length >
          MAX_NUM_LINES) then
        ((feedLines (List.replicate 1024 ([] : List Char))).lines ++ [[]]).drop
          (((feedLines (List.replicate 1024 ([] : List Char))).lines ++ [[]]).length -
            (MAX_NUM_LINES - 1))
      else (feedLines (List.replicate 1024 ([] : List Char))).lines ++ [[]] := by
    rw [h1]
  have h2 : (updateLines (feedLines (List.replicate 1024 ([] : List Char)))
      ['\n']).1.lines.length = 1023 := by
    rw [h1', if_pos hc, List.length_drop, List.length_append, hlen']
    decide
  refine ⟨hlen', h2, ?_⟩
  rw [h2]
  decide

/-- C3 (amended): whenever appending a completed line makes the history
count exceed `MAX_NUM_LINES`, the eviction step drops the oldest entries but
keeps exactly the newest `MAX_NUM_LINES - 1` = 1023 entries (not
`MAX_NUM_LINES`). -/
theorem claim_C3 (s : Receiver) (n : Nat) (h : MAX_NUM_LINES ≤ s.lines.length) :
    (updChar (s, n) '\n').1.lines =
      (s.lines ++ [s.new_line]).drop (s.lines.length + 1 - (MAX_NUM_LINES - 1)) ∧
    (updChar (s, n) '\n').1.lines.length = MAX_NUM_LINES - 1 := by
  have hred : (updChar (s, n) '\n').1.lines =
      if ((s.lines ++ [s.new_line]).length > MAX_NUM_LINES) then
        (s.lines ++ [s.new_line]).drop ((s.lines ++ [s.new_line]).length - (MAX_NUM_LINES - 1))
      else s.lines ++ [s.new_line] := by
    simp [updChar]
  have hl : (s.lines ++ [s.new_line]).length = s.lines.length + 1 := by simp
  have hc : (s.lines ++ [s.new_line]).length > MAX_NUM_LINES := by
    rw [hl]
    omega
  rw [hred, if_pos hc, hl]
  refine ⟨rfl, ?_⟩
  rw [List.length_drop, hl]
  omega

/-- Witness for the amended C3 at a receiver already holding 1024 lines. -/
theorem claim_C3_witness :
    (updChar ({ initReceiver with lines := List.replicate 1024 [] }, 0) '\n').1.lines.length =
      MAX_NUM_LINES - 1 :=
  (claim_C3 { initReceiver with lines := List.replicate 1024 [] } 0
    (by simp [MAX_NUM_LINES])).2

/-- Modelled from the spec: display names of the conversational states (what
`"%s" % self._state` would show; `defs.py` is absent from src) and Python's
`str(None)`. -/
def stateName : Option VState → List Char
  | none => "None".toList
  | some VState.TBD => "TBD".toList
  | some VState.PROMPT => "PROMPT".toList
  | some VState.COLLECTING_DATA => "COLLECTING_DATA".toList

/-- Right-justification to 20 characters (the `"%20s"` format). -/
def rightJust20 (l : List Char) : List Char :=
  List.replicate (20 - l.length) ' ' ++ l

/-- `_Receiver._update_outfile`'s transformation: when `prefix_state` is set
each newline in the buffer is replaced by a newline, the padded current
state name and `"| "` (Python `buffer.replace('\n', "\n%20s| " % self._state)`). -/
def mirrorBytes (s : Receiver) (b : List Char) : List Char :=
  if s.prefix_state then
    b.flatMap (fun c =>
      if c = '\n' then '\n' :: (rightJust20 (stateName s.state) ++ ['|', ' ']) else [c])
  else b

/-- The write effect of `_Receiver._update_outfile` (nothing without an
outfile). -/
def updateOutfileEff (s : Receiver) (b : List Char) : List Effect :=
  if s.has_outfile then [Effect.outfile_write (mirrorBytes s b)] else []

/-- The effect of `_Receiver._end_outfile`: the terminal marker write
(nothing without an outfile). -/
def endOutfileEff (s : Receiver) : List Effect :=
  if s.has_outfile then [Effect.end_mark] else []

/-- One observable outcome of a `sock.recv` attempt inside `_recv`: a
successful read returning a byte buffer (possibly empty, Python `''`, on
orderly EOF), a `socket.timeout`, or a `socket.error`. -/
inductive SockEvent
  | data (b : List Char)
  | timeout
  | err
deriving DecidableEq

/-- `_Receiver._recv` over a finite trace of socket outcomes: loop while
active and nothing read, treating timeouts as liveness checks; a socket
error clears the active flag and returns no buffer; a successful read
returns the buffer when it is nonempty (updating the receive time and
writing to the outfile) and no buffer otherwise.  The outer `none` means the
trace was exhausted while still waiting (where the Python code would stay
blocked in the loop); otherwise the result carries the returned buffer (if
any), the updated receiver, the remaining trace and the outfile write
effects. -/
def recvFn (s : Receiver) :
    List SockEvent → Option (Option (List Char) × Receiver × List SockEvent × List Effect)
  | [] =>
      if s.active = true then none
      else some (none, s, [], [])
  | SockEvent.timeout :: tl =>
      if s.active = true then recvFn s tl
      else some (none, s, SockEvent.timeout :: tl, [])
  | SockEvent.err :: tl =>
      if s.active = true then some (none, { s with active := false }, tl, [])
      else some (none, s, SockEvent.err :: tl, [])
  | SockEvent.data b :: tl =>
      if s.active = true then
        if b = [] then some (none, s, tl, [])
        else
          some (some b, { s with recv_time := s.recv_time + 1 }, tl,
            updateOutfileEff { s with recv_time := s.recv_time + 1 } b)
      else some (none, s, SockEvent.data b :: tl, [])

/-- The type of a coroutine filter stage, modelled as a state-passing
function: the stage takes its internal buffered state and one
`(xelems, buffer)` input, and returns its new state plus the list of items
it sends downstream.  The `ts_filter` and `pd0_filter` modules are absent
from the source tree, so, following the spec's stage contract, filters are
abstract values of this type in every theorem. -/
abbrev FilterF (σ : Type) : Type :=
  σ → XElems × List Char → σ × List (XElems × List Char)

/-- The sink as a pipeline consumer. -/
def sinkC (prompt : List Char) (s : Receiver) (i : XElems × List Char) :
    Receiver × List Effect :=
  sinkStep prompt s i.1 i.2

/-- Sequentially feed a list of items to a consumer, collecting effects. -/
def consumeAll {π : Type} (c : π → XElems × List Char → π × List Effect) :
    π → List (XElems × List Char) → π × List Effect
  | st, [] => (st, [])
  | st, i :: is =>
      let u := c st i
      let v := consumeAll c u.1 is
      (v.1, u.2 ++ v.2)

/-- A coroutine filter wrapped around a downstream consumer (the
`filter(target)` composition of the source): run the filter on the input,
then feed each item it emits to the target in order. -/
def filterStage {α π : Type} (f : FilterF α)
    (down : π → XElems × List Char → π × List Effect) :
    α × π → XElems × List Char → (α × π) × List Effect :=
  fun st inp =>
    let u := f st.1 inp
    let v := consumeAll down st.2 u.2
    ((u.1, v.1), v.2)

/-- Sequentially feed a list of items through a filter, collecting its
outputs in order. -/
def sendAllFilter {σ : Type} (f : FilterF σ) :
    σ → List (XElems × List Char) → σ × List (XElems × List Char)
  | t, [] => (t, [])
  | t, i :: is =>
      let u := f t i
      let v := sendAllFilter f u.1 is
      (v.1, u.2 ++ v.2)

/-- The pipeline set up by `run`, applied to one received buffer: with
`ooi_digi` the pipeline is the bare sink receiving `({}, recv)`; otherwise
it is `timestamp_filter(pd0_filter(sink()))`. -/
def pipeProcess {σ τ : Type} (prompt : List Char) (tsF : FilterF σ) (pd0F : FilterF τ)
    (digi : Bool) (ps : σ × τ) (s : Receiver) (b : List Char) :
    Receiver × (σ × τ) × List Effect :=
  if digi then
    let u := sinkC prompt s (emptyX, b)
    (u.1, ps, u.2)
  else
    let u := filterStage tsF (filterStage pd0F (sinkC prompt)) (ps.1, (ps.2, s)) (emptyX, b)
    (u.1.2.2, (u.1.1, u.1.2.1), u.2)

/-- The read loop of `_Receiver.run` over a finite trace of socket events:
while active, read (`_recv` inlined): a timeout just rechecks the flag, a
socket error clears the active flag (so the loop exits and closes down), an
empty read yields no buffer, and a nonempty read is pushed into the
pipeline; on loop exit the pipeline is closed and `_end_outfile` runs.  The
result is `none` when the loop is still running as the trace ends. -/
def runLoop {σ τ : Type} (prompt : List Char) (tsF : FilterF σ) (pd0F : FilterF τ)
    (ps : σ × τ) (s : Receiver) (acc : List Effect) :
    List SockEvent → Option (Receiver × (σ × τ) × List Effect)
  | [] =>
      if s.active = true then none
      else some (s, ps, acc ++ [Effect.pipe_closed] ++ endOutfileEff s)
  | SockEvent.timeout :: tl =>
      if s.active = true then runLoop prompt tsF pd0F ps s acc tl
      else some (s, ps, acc ++ [Effect.pipe_closed] ++ endOutfileEff s)
  | SockEvent.err :: tl =>
      if s.active = true then runLoop prompt tsF pd0F ps { s with active := false } acc tl
      else some (s, ps, acc ++ [Effect.pipe_closed] ++ endOutfileEff s)
  | SockEvent.data b :: tl =>
      if s.active = true then
        if b = [] then runLoop prompt tsF pd0F ps s acc tl
        else
          let s1 := { s with recv_time := s.recv_time + 1 }
          let e1 := updateOutfileEff s1 b
          let u := pipeProcess prompt tsF pd0F s1.ooi_digi ps s1 b
          runLoop prompt tsF pd0F u.2.1 u.1 (acc ++ e1 ++ u.2.2) tl
      else some (s, ps, acc ++ [Effect.pipe_closed] ++ endOutfileEff s)

/-- `_Receiver.run`: set the active flag and run the read loop (the socket
timeout configuration has no observable counterpart in the model). -/
def run {σ τ : Type} (prompt : List Char) (tsF : FilterF σ) (pd0F : FilterF τ)
    (ps : σ × τ) (s : Receiver) (tr : List SockEvent) :
    Option (Receiver × (σ × τ) × List Effect) :=
  runLoop prompt tsF pd0F ps { s with active := true } [] tr

/-- Every effect emitted by `_set_state` is a transition record. -/
theorem setState_eff_mem (s : Receiver) (v : VState) (e : Effect)
    (he : e ∈ (setState s v).2) : ∃ a b, e = Effect.transition a b := by
  unfold setState at he
  split at he
  · simp at he
    exact ⟨s.state, some v, he⟩
  · simp at he

/-- Every effect emitted by `_buffer_received` is a transition record. -/
theorem bufferReceived_eff_mem (prompt : List Char) (s : Receiver) (buf : List Char)
    (e : Effect) (he : e ∈ (bufferReceived prompt s buf).2) :
    ∃ a b, e = Effect.transition a b := by
  simp only [bufferReceived] at he
  split at he
  · exact setState_eff_mem _ _ e he
  · split at he <;> simp at he

/-- Every effect emitted by `_pd0_received` is a transition record or the
listener call carrying the delivered ensemble. -/
theorem pd0Received_eff_mem (s : Receiver) (p : Nat) (e : Effect)
    (he : e ∈ (pd0Received s p).2) :
    (∃ a b, e = Effect.transition a b) ∨ e = Effect.listener_call p := by
  simp only [pd0Received, List.mem_append] at he
  rcases he with he | he
  · exact Or.inl (setState_eff_mem _ _ e he)
  · split at he
    · simp at he
      exact Or.inr he
    · simp at he

/-- Every effect emitted by a `sink` round is a transition record or a
listener call. -/
theorem sinkStep_eff_mem (prompt : List Char) (s : Receiver) (x : XElems)
    (buf : List Char) (e : Effect) (he : e ∈ (sinkStep prompt s x buf).2) :
    (∃ a b, e = Effect.transition a b) ∨ (∃ p, e = Effect.listener_call p) := by
  simp only [sinkStep, List.mem_append] at he
  rcases he with (he | he) | he
  · split at he
    · split at he <;> simp [timestampReceived] at he
    · simp at he
  · split at he
    · next p heq =>
        rcases pd0Received_eff_mem _ p e he with h | h
        · exact Or.inl h
        · exact Or.inr ⟨p, h⟩
    · simp at he
  · split at he
    · exact Or.inl (bufferReceived_eff_mem _ _ _ e he)
    · simp at he

/-- `_buffer_received` does not change the active or configuration flags. -/
theorem bufferReceived_untouched (prompt : List Char) (s : Receiver) (buf : List Char) :
    (bufferReceived prompt s buf).1.active = s.active ∧
    (bufferReceived prompt s buf).1.has_outfile = s.has_outfile ∧
    (bufferReceived prompt s buf).1.ooi_digi = s.ooi_digi := by
  rw [bufferReceived_fst]
  obtain ⟨h1, h2, h3, h4, h5, h6, h7, h8⟩ := updateLines_untouched s buf
  exact ⟨h1, h2, h4⟩

/-- A `sink` round does not change the active or configuration flags. -/
theorem sinkStep_untouched (prompt : List Char) (s : Receiver) (x : XElems)
    (buf : List Char) :
    (sinkStep prompt s x buf).1.active = s.active ∧
    (sinkStep prompt s x buf).1.has_outfile = s.has_outfile ∧
    (sinkStep prompt s x buf).1.ooi_digi = s.ooi_digi := by
  have hstep : ∀ r : Receiver,
      ((if ¬buf = [] then bufferReceived prompt r buf else (r, [])).1).active = r.active ∧
      ((if ¬buf = [] then bufferReceived prompt r buf else (r, [])).1).has_outfile =
        r.has_outfile ∧
      ((if ¬buf = [] then bufferReceived prompt r buf else (r, [])).1).ooi_digi = r.ooi_digi := by
    intro r
    split
    · exact bufferReceived_untouched prompt r buf
    · exact ⟨rfl, rfl, rfl⟩
  have hmid : ∀ (r : Receiver) (o : Option Nat),
      ((match o with
        | some p => pd0Received r p
        | none => (r, [])).1).active = r.active ∧
      ((match o with
        | some p => pd0Received r p
        | none => (r, [])).1).has_outfile = r.has_outfile ∧
      ((match o with
        | some p => pd0Received r p
        | none => (r, [])).1).ooi_digi = r.ooi_digi := by
    intro r o
    rcases o with _ | p
    · exact ⟨rfl, rfl, rfl⟩
    · obtain ⟨f1, f2, f3, f4⟩ := pd0Received_flags r p
      exact ⟨f4, f2, f3⟩
  have hts : ∀ o : Option Nat,
      ((match o with
        | some t => if t ≠ 0 then timestampReceived s t else (s, [])
        | none => (s, [])).1).active = s.active ∧
      ((match o with
        | some t => if t ≠ 0 then timestampReceived s t else (s, [])
        | none => (s, [])).1).has_outfile = s.has_outfile ∧
      ((match o with
        | some t => if t ≠ 0 then timestampReceived s t else (s, [])
        | none => (s, [])).1).ooi_digi = s.ooi_digi := by
    intro o
    rcases o with _ | t
    · exact ⟨rfl, rfl, rfl⟩
    · refine ⟨?_, ?_, ?_⟩
      · show (if t ≠ 0 then timestampReceived s t else (s, [])).1.active = s.active
        split <;> rfl
      · show (if t ≠ 0 then timestampReceived s t else (s, [])).1.has_outfile = s.has_outfile
        split <;> rfl
      · show (if t ≠ 0 then timestampReceived s t else (s, [])).1.ooi_digi = s.ooi_digi
        split <;> rfl
  obtain ⟨a1, a2, a3⟩ := hts x.latest_ts
  obtain ⟨b1, b2, b3⟩ := hmid ((match x.latest_ts with
    | some t => if t ≠ 0 then timestampReceived s t else (s, [])
    | none => (s, [])).1) x.pd0
  obtain ⟨c1, c2, c3⟩ := hstep ((match x.pd0 with
    | some p => pd0Received ((match x.latest_ts with
        | some t => if t ≠ 0 then timestampReceived s t else (s, [])
        | none => (s, [])).1) p
    | none => ((match x.latest_ts with
        | some t => if t ≠ 0 then timestampReceived s t else (s, [])
        | none => (s, [])).1, [])).1)
  exact ⟨c1.trans (b1.trans a1), c2.trans (b2.trans a2), c3.trans (b3.trans a3)⟩

/-- `consumeAll` preserves any invariant its consumer preserves. -/
theorem consumeAll_preserve {π : Type} (c : π → XElems × List Char → π × List Effect)
    (P : π → Prop) (hc : ∀ st i, P st → P (c st i).1) :
    ∀ (ins : List (XElems × List Char)) (st : π), P st → P (consumeAll c st ins).1 := by
  intro ins
  induction ins with
  | nil => intro st h; exact h
  | cons i is ih =>
      intro st h
      exact ih _ (hc st i h)

/-- Every effect of `consumeAll` comes from one consumer invocation. -/
theorem consumeAll_eff_mem {π : Type} (c : π → XElems × List Char → π × List Effect)
    (Q : Effect → Prop) (hc : ∀ st i e, e ∈ (c st i).2 → Q e) :
    ∀ (ins : List (XElems × List Char)) (st : π) (e : Effect),
      e ∈ (consumeAll c st ins).2 → Q e := by
  intro ins
  induction ins with
  | nil =>
      intro st e he
      simp [consumeAll] at he
  | cons i is ih =>
      intro st e he
      simp only [consumeAll, List.mem_append] at he
      rcases he with he | he
      · exact hc st i e he
      · exact ih _ e he

/-- Every effect of `_update_outfile` is an outfile write. -/
theorem updateOutfileEff_mem (s : Receiver) (b : List Char) (e : Effect)
    (he : e ∈ updateOutfileEff s b) : ∃ w, e = Effect.outfile_write w := by
  unfold updateOutfileEff at he
  split at he <;> simp at he
  exact ⟨_, he⟩

/-- The pipeline, on one buffer, does not change the active or configuration
flags of the receiver. -/
theorem pipeProcess_untouched {σ τ : Type} (prompt : List Char) (tsF : FilterF σ)
    (pd0F : FilterF τ) (digi : Bool) (ps : σ × τ) (s : Receiver) (b : List Char) :
    (pipeProcess prompt tsF pd0F digi ps s b).1.active = s.active ∧
    (pipeProcess prompt tsF pd0F digi ps s b).1.has_outfile = s.has_outfile ∧
    (pipeProcess prompt tsF pd0F digi ps s b).1.ooi_digi = s.ooi_digi := by
  unfold pipeProcess
  split
  · exact sinkStep_untouched prompt s emptyX b
  · have hsink : ∀ (r : Receiver) (i : XElems × List Char),
        (r.active = s.active ∧ r.has_outfile = s.has_outfile ∧ r.ooi_digi = s.ooi_digi) →
        ((sinkC prompt r i).1.active = s.active ∧
         (sinkC prompt r i).1.has_outfile = s.has_outfile ∧
         (sinkC prompt r i).1.ooi_digi = s.ooi_digi) := by
      intro r i hr
      obtain ⟨u1, u2, u3⟩ := sinkStep_untouched prompt r i.1 i.2
      exact ⟨u1.trans hr.1, u2.trans hr.2.1, u3.trans hr.2.2⟩
    have hinner : ∀ (st : τ × Receiver) (i : XElems × List Char),
        (st.2.active = s.active ∧ st.2.has_outfile = s.has_outfile ∧
          st.2.ooi_digi = s.ooi_digi) →
        ((filterStage pd0F (sinkC prompt) st i).1.2.active = s.active ∧
         (filterStage pd0F (sinkC prompt) st i).1.2.has_outfile = s.has_outfile ∧
         (filterStage pd0F (sinkC prompt) st i).1.2.ooi_digi = s.ooi_digi) := by
      intro st i hst
      exact consumeAll_preserve (sinkC prompt)
        (fun r => r.active = s.active ∧ r.has_outfile = s.has_outfile ∧
          r.ooi_digi = s.ooi_digi)
        hsink (pd0F st.1 i).2 st.2 hst
    exact consumeAll_preserve (filterStage pd0F (sinkC prompt))
      (fun st => st.2.active = s.active ∧ st.2.has_outfile = s.has_outfile ∧
        st.2.ooi_digi = s.ooi_digi)
      hinner (tsF ps.1 (emptyX, b)).2 (ps.2, s) ⟨rfl, rfl, rfl⟩

/-- Every effect of the pipeline on one buffer is a transition record or a
listener call. -/
theorem pipeProcess_eff_mem {σ τ : Type} (prompt : List Char) (tsF : FilterF σ)
    (pd0F : FilterF τ) (digi : Bool) (ps : σ × τ) (s : Receiver) (b : List Char)
    (e : Effect) (he : e ∈ (pipeProcess prompt tsF pd0F digi ps s b).2.2) :
    (∃ u v, e = Effect.transition u v) ∨ (∃ p, e = Effect.listener_call p) := by
  unfold pipeProcess at he
  split at he
  · exact sinkStep_eff_mem prompt s emptyX b e he
  · exact consumeAll_eff_mem (filterStage pd0F (sinkC prompt))
      (fun f => (∃ u v, f = Effect.transition u v) ∨ (∃ p, f = Effect.listener_call p))
      (fun st i f hf =>
        consumeAll_eff_mem (sinkC prompt)
          (fun g => (∃ u v, g = Effect.transition u v) ∨ (∃ p, g = Effect.listener_call p))
          (fun r j g hg => sinkStep_eff_mem prompt r j.1 j.2 g hg)
          (pd0F st.1 i).2 st.2 f hf)
      (tsF ps.1 (emptyX, b)).2 (ps.2, s) e he

/-- An inactive receiver makes the read loop exit immediately: the pipeline
is closed and the terminal marker written (when an outfile is attached),
whatever remains in the trace. -/
theorem runLoop_inactive {σ τ : Type} (prompt : List Char) (tsF : FilterF σ)
    (pd0F : FilterF τ) (ps : σ × τ) (s : Receiver) (acc : List Effect)
    (tr : List SockEvent) (h : s.active = false) :
    runLoop prompt tsF pd0F ps s acc tr =
      some (s, ps, acc ++ [Effect.pipe_closed] ++ endOutfileEff s) := by
  cases tr with
  | nil => simp [runLoop, h]
  | cons ev tl => cases ev <;> simp [runLoop, h]

/-- Any trace made of a socket-error-free prefix followed by a socket error
drives the read loop to a normal exit: the active flag is cleared, the
pipeline closed, the terminal marker appended, and every effect of the
prefix is a transition, listener call or data write. -/
theorem runLoop_err {σ τ : Type} (prompt : List Char) (tsF : FilterF σ) (pd0F : FilterF τ) :
    ∀ (pre rest : List SockEvent) (ps : σ × τ) (s : Receiver) (acc : List Effect),
      s.active = true → SockEvent.err ∉ pre →
      ∃ s' ps' mid,
        runLoop prompt tsF pd0F ps s acc (pre ++ SockEvent.err :: rest) =
          some (s', ps', (acc ++ mid) ++ [Effect.pipe_closed] ++ endOutfileEff s') ∧
        s'.active = false ∧ s'.has_outfile = s.has_outfile ∧
        (∀ e ∈ mid, e ≠ Effect.end_mark ∧ e ≠ Effect.pipe_closed) := by
  intro pre
  induction pre with
  | nil =>
      intro rest ps s acc ha _
      refine ⟨{ s with active := false }, ps, [], ?_, rfl, rfl, by simp⟩
      simp only [List.nil_append]
      simp only [runLoop]
      rw [if_pos ha, runLoop_inactive prompt tsF pd0F ps _ acc rest rfl]
      simp
  | cons ev pre ih =>
      intro rest ps s acc ha hne
      have hne' : SockEvent.err ∉ pre := fun hmem => hne (List.mem_cons_of_mem _ hmem)
      cases ev with
      | timeout =>
          obtain ⟨s', ps', mid, hrun, h1, h2, h3⟩ := ih rest ps s acc ha hne'
          refine ⟨s', ps', mid, ?_, h1, h2, h3⟩
          simp only [List.cons_append]
          simp only [runLoop]
          rw [if_pos ha]
          exact hrun
      | err => exact absurd (List.mem_cons_self _ _) hne
      | data b =>
          by_cases hb : b = []
          · subst hb
            obtain ⟨s', ps', mid, hrun, h1, h2, h3⟩ := ih rest ps s acc ha hne'
            refine ⟨s', ps', mid, ?_, h1, h2, h3⟩
            simp only [List.cons_append]
            simp only [runLoop]
            rw [if_pos ha, if_pos trivial]
            exact hrun
          · have hp := pipeProcess_untouched prompt tsF pd0F
              ({ s with recv_time := s.recv_time + 1 } : Receiver).ooi_digi ps
              { s with recv_time := s.recv_time + 1 } b
            obtain ⟨s', ps', mid, hrun, h1, h2, h3⟩ := ih rest
              (pipeProcess prompt tsF pd0F
                ({ s with recv_time := s.recv_time + 1 } : Receiver).ooi_digi ps
                { s with recv_time := s.recv_time + 1 } b).2.1
              (pipeProcess prompt tsF pd0F
                ({ s with recv_time := s.recv_time + 1 } : Receiver).ooi_digi ps
                { s with recv_time := s.recv_time + 1 } b).1
              (acc ++ updateOutfileEff { s with recv_time := s.recv_time + 1 } b ++
                (pipeProcess prompt tsF pd0F
                  ({ s with recv_time := s.recv_time + 1 } : Receiver).ooi_digi ps
                  { s with recv_time := s.recv_time + 1 } b).2.2)
              (hp.1.trans ha) hne'
            refine ⟨s', ps',
              updateOutfileEff { s with recv_time := s.recv_time + 1 } b ++
                (pipeProcess prompt tsF pd0F
                  ({ s with recv_time := s.recv_time + 1 } : Receiver).ooi_digi ps
                  { s with recv_time := s.recv_time + 1 } b).2.2 ++ mid,
              ?_, h1, h2.trans hp.2.1, ?_⟩
            · simp only [List.cons_append]
              simp only [runLoop]
              rw [if_pos ha, if_neg hb, hrun]
              simp [List.append_assoc]
            · intro e he
              rcases List.mem_append.1 he with he | he
              · rcases List.mem_append.1 he with he | he
                · obtain ⟨w, rfl⟩ := updateOutfileEff_mem _ _ e he
                  exact ⟨by simp, by simp⟩
                · rcases pipeProcess_eff_mem prompt tsF pd0F _ _ _ b e he with
                    ⟨u, v, rfl⟩ | ⟨p, rfl⟩
                  · exact ⟨by simp, by simp⟩
                  · exact ⟨by simp, by simp⟩
              · exact h3 e he

/-- A trace without a socket error never makes the read loop of an active
receiver exit: the loop is still running when the trace ends. -/
theorem runLoop_no_err {σ τ : Type} (prompt : List Char) (tsF : FilterF σ) (pd0F : FilterF τ) :
    ∀ (tr : List SockEvent) (ps : σ × τ) (s : Receiver) (acc : List Effect),
      s.active = true → SockEvent.err ∉ tr →
      runLoop prompt tsF pd0F ps s acc tr = none := by
  intro tr
  induction tr with
  | nil =>
      intro ps s acc ha _
      simp only [runLoop]
      rw [if_pos ha]
  | cons ev tl ih =>
      intro ps s acc ha hne
      have hne' : SockEvent.err ∉ tl := fun h => hne (List.mem_cons_of_mem _ h)
      cases ev with
      | timeout =>
          simp only [runLoop]
          rw [if_pos ha]
          exact ih ps s acc ha hne'
      | err => exact absurd (List.mem_cons_self _ _) hne
      | data b =>
          by_cases hb : b = []
          · subst hb
            simp only [runLoop]
            rw [if_pos ha, if_pos trivial]
            exact ih ps s acc ha hne'
          · simp only [runLoop]
            rw [if_pos ha, if_neg hb]
            have hp := (pipeProcess_untouched prompt tsF pd0F
              ({ s with recv_time := s.recv_time + 1 } : Receiver).ooi_digi ps
              { s with recv_time := s.recv_time + 1 } b).1
            exact ih _ _ _ (hp.trans ha) hne'

/-- The terminal-marker count of `_end_outfile`'s effects. -/
theorem endOutfileEff_count_end (r : Receiver) :
    (endOutfileEff r).count Effect.end_mark = if r.has_outfile then 1 else 0 := by
  unfold endOutfileEff
  split <;> decide

/-- `_end_outfile` never closes the pipeline. -/
theorem endOutfileEff_count_closed (r : Receiver) :
    (endOutfileEff r).count Effect.pipe_closed = 0 := by
  unfold endOutfileEff
  split <;> decide

/-- C7: a non-timeout socket error during a read is terminal: for any trace
made of an error-free prefix followed by a socket error, `run` returns
normally (no exception escapes the loop) with the active flag cleared, the
pipeline is closed exactly once, and the terminal marker is written to the
transcript exactly once when one is attached (never otherwise). -/
theorem claim_C7 {σ τ : Type} (prompt : List Char) (tsF : FilterF σ) (pd0F : FilterF τ)
    (ps : σ × τ) (s : Receiver) (pre rest : List SockEvent)
    (h : SockEvent.err ∉ pre) :
    ∃ s' ps' eff,
      run prompt tsF pd0F ps s (pre ++ SockEvent.err :: rest) = some (s', ps', eff) ∧
      s'.active = false ∧
      eff.count Effect.end_mark = (if s.has_outfile then 1 else 0) ∧
      eff.count Effect.pipe_closed = 1 := by
  obtain ⟨s', ps', mid, hrun, h1, h2, h3⟩ :=
    runLoop_err prompt tsF pd0F pre rest ps { s with active := true } [] rfl h
  have hm1 : mid.count Effect.end_mark = 0 := by
    rw [List.count_eq_zero]
    intro hmem
    exact (h3 _ hmem).1 rfl
  have hm2 : mid.count Effect.pipe_closed = 0 := by
    rw [List.count_eq_zero]
    intro hmem
    exact (h3 _ hmem).2 rfl
  have hpc : ([Effect.pipe_closed] : List Effect).count Effect.end_mark = 0 := by decide
  have hem : ([Effect.pipe_closed] : List Effect).count Effect.pipe_closed = 1 := by decide
  refine ⟨s', ps', _, hrun, h1, ?_, ?_⟩
  · simp only [List.nil_append, List.count_append, hm1, hpc, endOutfileEff_count_end, h2,
      Nat.zero_add, Nat.add_zero]
  · simp only [List.nil_append, List.count_append, hm2, hem, endOutfileEff_count_closed,
      Nat.zero_add, Nat.add_zero]

/-- Witness for C7: one socket error on a receiver with a transcript. -/
theorem claim_C7_witness :
    ∃ s' ps' eff,
      run PROMPT (fun u i => (u, [i])) (fun u i => (u, [i])) (((), ()) : Unit × Unit)
          { initReceiver with has_outfile := true } [SockEvent.err] = some (s', ps', eff) ∧
      s'.active = false ∧
      eff.count Effect.end_mark =
        (if ({ initReceiver with has_outfile := true } : Receiver).has_outfile then 1 else 0) ∧
      eff.count Effect.pipe_closed = 1 :=
  @claim_C7 Unit Unit PROMPT (fun u i => (u, [i])) (fun u i => (u, [i])) ((), ())
    { initReceiver with has_outfile := true } [] [] (by decide)

/-- C10: an orderly zero-byte read (EOF) is not terminal: `_recv` consumes
it and returns no buffer while leaving the receiver (in particular its
active flag) untouched; and the read loop never exits on any trace free of
socket errors — `run` is still running when such a trace ends, so only a
socket error (or an external `end()`) stops the loop. -/
theorem claim_C10 {σ τ : Type} (prompt : List Char) (tsF : FilterF σ) (pd0F : FilterF τ) :
    (∀ (s : Receiver) (tl : List SockEvent), s.active = true →
      recvFn s (SockEvent.data [] :: tl) = some (none, s, tl, [])) ∧
    (∀ (ps : σ × τ) (s : Receiver) (tr : List SockEvent), SockEvent.err ∉ tr →
      run prompt tsF pd0F ps s tr = none) := by
  constructor
  · intro s tl ha
    simp [recvFn, ha]
  · intro ps s tr hne
    exact runLoop_no_err prompt tsF pd0F tr ps { s with active := true } [] rfl hne

/-- Witness for C10: one EOF read, and a trace of a single EOF never ends
the loop. -/
theorem claim_C10_witness :
    recvFn { initReceiver with active := true } [SockEvent.data []] =
      some (none, { initReceiver with active := true }, [], []) ∧
    run PROMPT (fun u i => (u, [i])) (fun u i => (u, [i])) (((), ()) : Unit × Unit)
      initReceiver [SockEvent.data []] = none :=
  ⟨(@claim_C10 Unit Unit PROMPT (fun u i => (u, [i])) (fun u i => (u, [i]))).1
      { initReceiver with active := true } [] rfl,
   (@claim_C10 Unit Unit PROMPT (fun u i => (u, [i])) (fun u i => (u, [i]))).2 ((), ())
      initReceiver [SockEvent.data []] (by decide)⟩

/-- Splitting `consumeAll` over an appended input list. -/
theorem consumeAll_append {π : Type} (c : π → XElems × List Char → π × List Effect)
    (A B : List (XElems × List Char)) :
    ∀ p : π, consumeAll c p (A ++ B) =
      ((consumeAll c (consumeAll c p A).1 B).1,
       (consumeAll c p A).2 ++ (consumeAll c (consumeAll c p A).1 B).2) := by
  induction A with
  | nil =>
      intro p
      simp [consumeAll]
  | cons i is ih =>
      intro p
      simp only [List.cons_append, consumeAll]
      rw [show List.append is B = is ++ B from rfl, ih (c p i).1]
      simp [List.append_assoc]

/-- Fusion of a filter stage wrapped around a consumer: feeding items to
`filterStage f down` equals first collecting all of `f`'s outputs and then
feeding those to `down`. -/
theorem consumeAll_filterStage {τ π : Type} (f : FilterF τ)
    (down : π → XElems × List Char → π × List Effect) :
    ∀ (ins : List (XElems × List Char)) (t : τ) (p : π),
      consumeAll (filterStage f down) (t, p) ins =
        (((sendAllFilter f t ins).1, (consumeAll down p (sendAllFilter f t ins).2).1),
         (consumeAll down p (sendAllFilter f t ins).2).2) := by
  intro ins
  induction ins with
  | nil =>
      intro t p
      simp [consumeAll, sendAllFilter]
  | cons i is ih =>
      intro t p
      simp only [consumeAll, sendAllFilter, filterStage]
      rw [ih (f t i).1 (consumeAll down p (f t i).2).1]
      rw [consumeAll_append down (f t i).2 (sendAllFilter f (f t i).1 is).2 p]

/-- C9: pipeline wiring of `run`: with the direct-digital-link flag the
filters are skipped entirely — every received buffer goes straight to the
sink as `({}, recv)` and the outcome does not depend on the filters at all;
with the flag clear the pipeline is `timestamp_filter(pd0_filter(sink()))`:
the timestamp filter receives the raw input first, everything it emits then
passes through the pd0 filter, and everything the pd0 filter emits is
consumed by the sink, in order. -/
theorem claim_C9 {σ τ : Type} (prompt : List Char) (tsF tsF' : FilterF σ)
    (pd0F pd0F' : FilterF τ) (ps : σ × τ) (s : Receiver) (b : List Char) :
    (pipeProcess prompt tsF pd0F true ps s b =
      ((sinkStep prompt s emptyX b).1, ps, (sinkStep prompt s emptyX b).2)) ∧
    (pipeProcess prompt tsF pd0F true ps s b = pipeProcess prompt tsF' pd0F' true ps s b) ∧
    (pipeProcess prompt tsF pd0F false ps s b =
      ((consumeAll (sinkC prompt) s (sendAllFilter pd0F ps.2 (tsF ps.1 (emptyX, b)).2).2).1,
       ((tsF ps.1 (emptyX, b)).1, (sendAllFilter pd0F ps.2 (tsF ps.1 (emptyX, b)).2).1),
       (consumeAll (sinkC prompt) s (sendAllFilter pd0F ps.2 (tsF ps.1 (emptyX, b)).2).2).2)) := by
  refine ⟨rfl, rfl, ?_⟩
  unfold pipeProcess
  rw [if_neg (by simp)]
  simp only [filterStage]
  rw [consumeAll_filterStage pd0F (sinkC prompt) (tsF ps.1 (emptyX, b)).2 ps.2 s]

/-- The read loop is exactly `while active: recv = _recv(); if recv is not
None: pipeline.send(({}, recv))` over the modelled `_recv`: one unfolding of
`runLoop` is one `recvFn` call followed by the pipeline push (or the
closing sequence when inactive). -/
theorem runLoop_via_recv {σ τ : Type} (prompt : List Char) (tsF : FilterF σ)
    (pd0F : FilterF τ) :
    ∀ (tr : List SockEvent) (ps : σ × τ) (s : Receiver) (acc : List Effect),
      runLoop prompt tsF pd0F ps s acc tr =
        if s.active = true then
          match recvFn s tr with
          | none => none
          | some (none, s', tl, eff) => runLoop prompt tsF pd0F ps s' (acc ++ eff) tl
          | some (some b, s', tl, eff) =>
              runLoop prompt tsF pd0F
                (pipeProcess prompt tsF pd0F s'.ooi_digi ps s' b).2.1
                (pipeProcess prompt tsF pd0F s'.ooi_digi ps s' b).1
                (acc ++ eff ++ (pipeProcess prompt tsF pd0F s'.ooi_digi ps s' b).2.2) tl
        else some (s, ps, acc ++ [Effect.pipe_closed] ++ endOutfileEff s) := by
  intro tr
  induction tr with
  | nil =>
      intro ps s acc
      by_cases ha : s.active = true
      · simp only [runLoop, recvFn]
        rw [if_pos ha, if_pos ha, if_pos ha]
      · simp only [runLoop, recvFn]
        rw [if_neg ha, if_neg ha]
  | cons ev tl ih =>
      intro ps s acc
      by_cases ha : s.active = true
      · cases ev with
        | timeout =>
            simp only [runLoop, recvFn]
            rw [if_pos ha, if_pos ha, if_pos ha]
            rw [ih ps s acc, if_pos ha]
        | err =>
            simp only [runLoop, recvFn]
            rw [if_pos ha, if_pos ha, if_pos ha]
            rw [runLoop_inactive prompt tsF pd0F ps { s with active := false } acc tl rfl]
            simp [runLoop_inactive]
        | data b =>
            by_cases hb : b = []
            · subst hb
              simp only [runLoop, recvFn]
              rw [if_pos ha, if_pos ha, if_pos ha, if_pos trivial, if_pos trivial]
              simp
            · simp only [runLoop, recvFn]
              rw [if_pos ha, if_pos ha, if_pos ha, if_neg hb, if_neg hb]
      · cases ev <;>
          · simp only [runLoop, recvFn]
            rw [if_neg ha, if_neg ha]
